import Mathlib

set_option maxHeartbeats 1000000

/-!
Shallow embedding of the devEvents repository's data-model logic:

* `src/database/event.model.ts` — `createSlug`, `normalizeDate`,
  `normalizeTime`, and the Event pre-save hook;
* `src/database/booking.model.ts` — `emailRegex` and the Booking pre-save
  hook;
* the Mongoose connection cache (`connectToDatabase`);
* the event-details page component's fetch/render control flow.

Strings are modelled as `List Char` (with `String` wrappers where the
claims speak of strings); JavaScript regex replaces are modelled as the
corresponding character-list transformations.
-/

namespace DevEvents

/-- The character class matched by the JavaScript regex escape `\s`
(whitespace, line terminators, NBSP, Unicode spaces, BOM). -/
def isJsWs (c : Char) : Bool :=
  c == ' ' || c == '\t' || c == '\n' || c == '\r' || c == '\x0b' || c == '\x0c' ||
  c == '\u00A0' || c == '\u1680' || ('\u2000' ≤ c && c ≤ '\u200A') ||
  c == '\u2028' || c == '\u2029' || c == '\u202F' || c == '\u205F' ||
  c == '\u3000' || c == '\uFEFF'

/-- Model of `String.prototype.toLowerCase` as the slug pipeline observes
it.  Exactly two code points have a lowercase image containing ASCII
letters: U+212A (KELVIN SIGN, lowering to `k`) and U+0130 (LATIN CAPITAL
LETTER I WITH DOT ABOVE, lowering to `i` followed by U+0307, a combining
mark the following `[^a-z0-9\s-]` filter removes).  Those two are mapped
to their ASCII letter; every other non-ASCII character has a non-ASCII
lowercase image that the filter removes, so it is left unchanged. -/
def jsToLower (c : Char) : Char :=
  if c = '\u212A' then 'k'
  else if c = '\u0130' then 'i'
  else c.toLower

/-- Model of `String.prototype.trim`: strip `\s` characters from both ends. -/
def jsTrim (l : List Char) : List Char :=
  ((l.dropWhile isJsWs).reverse.dropWhile isJsWs).reverse

/-- `[a-z0-9]` — lowercase ASCII letters and digits. -/
def isLowerAlnum (c : Char) : Bool :=
  ('a' ≤ c && c ≤ 'z') || ('0' ≤ c && c ≤ '9')

/-- The class `[a-z0-9\s-]`: characters kept by
`.replace(/[^a-z0-9\s-]/g, "")` in `createSlug`. -/
def isKeepChar (c : Char) : Bool := isLowerAlnum c || isJsWs c || c == '-'

/-- Generic run-replacing helper: each maximal run of characters
satisfying `p` is replaced by the single character `r`.  Written with a
two-character lookahead so that it is structurally recursive. -/
def replaceRuns (p : Char → Bool) (r : Char) : List Char → List Char
  | [] => []
  | [c] => if p c then [r] else [c]
  | c1 :: c2 :: rest =>
    if p c1 && p c2 then replaceRuns p r (c2 :: rest)
    else (if p c1 then r else c1) :: replaceRuns p r (c2 :: rest)

/-- Model of `.replace(/\s+/g, "-")`: each maximal run of `\s` characters
becomes a single dash. -/
def replaceWsRuns (l : List Char) : List Char := replaceRuns isJsWs '-' l

/-- Whether a character is a dash (the regex `-+` class). -/
def isDash (c : Char) : Bool := c == '-'

/-- Model of the dash-collapsing replace (regex `-+` to `"-"`): each
maximal run of dashes becomes a single dash. -/
def collapseDashRuns (l : List Char) : List Char := replaceRuns isDash '-' l

/-- Model of the leading-dash half of the final replace (regex `^-`):
remove one leading dash. -/
def stripLeadDash (l : List Char) : List Char :=
  if l.head? == some '-' then l.tail else l

/-- Model of the trailing-dash half of the final replace (regex `-$`):
remove one trailing dash. -/
def stripTrailDash (l : List Char) : List Char :=
  if l.getLast? == some '-' then l.dropLast else l

/-- Model of the final replace (regex `^-` or `-$` to `""`): remove one
leading and one trailing dash. -/
def stripOuterDashes (l : List Char) : List Char :=
  stripTrailDash (stripLeadDash l)

/-- `createSlug` from `src/database/event.model.ts`: lowercase, trim,
remove characters outside `[a-z0-9\s-]`, replace whitespace runs with
dashes, collapse dash runs, strip leading/trailing dashes. -/
def createSlugChars (title : List Char) : List Char :=
  stripOuterDashes (collapseDashRuns (replaceWsRuns
    ((jsTrim (title.map jsToLower)).filter isKeepChar)))

/-- String-level wrapper for `createSlug`. -/
def createSlug (title : String) : String :=
  ⟨createSlugChars title.data⟩

/-- Characters allowed in a well-formed slug: lowercase letters, digits,
dashes. -/
def isSlugChar (c : Char) : Bool := isLowerAlnum c || c == '-'

/-- Whether the list contains two consecutive dashes. -/
def hasDoubleDash : List Char → Bool
  | c1 :: c2 :: rest => (c1 == '-' && c2 == '-') || hasDoubleDash (c2 :: rest)
  | _ => false

/-- Whether the list starts with a dash. -/
def headIsDash (l : List Char) : Bool := l.head? == some '-'

/-- Whether the list ends with a dash. -/
def lastIsDash (l : List Char) : Bool := l.getLast? == some '-'

lemma replaceRuns_mem (p : Char → Bool) (r : Char) :
    ∀ l, ∀ c ∈ replaceRuns p r l, c = r ∨ (c ∈ l ∧ p c = false)
  | [] => by intro c hc; rw [replaceRuns] at hc; simp at hc
  | [c0] => by
    intro c hc
    rw [replaceRuns] at hc
    split at hc
    · exact Or.inl (by simpa using hc)
    · rename_i hp
      have hcc : c = c0 := by simpa using hc
      subst hcc
      exact Or.inr ⟨List.mem_singleton_self _, by simpa using hp⟩
  | c1 :: c2 :: rest => by
    intro c hc
    rw [replaceRuns] at hc
    split at hc
    · rcases replaceRuns_mem p r (c2 :: rest) c hc with h | ⟨hm, hp⟩
      · exact Or.inl h
      · exact Or.inr ⟨List.mem_cons_of_mem _ hm, hp⟩
    · rcases List.mem_cons.mp hc with h1 | h2
      · by_cases hp1 : p c1 = true
        · rw [if_pos hp1] at h1
          exact Or.inl h1
        · rw [if_neg hp1] at h1
          subst h1
          exact Or.inr ⟨List.mem_cons_self _ _, by simpa using hp1⟩
      · rcases replaceRuns_mem p r (c2 :: rest) c h2 with h | ⟨hm, hp⟩
        · exact Or.inl h
        · exact Or.inr ⟨List.mem_cons_of_mem _ hm, hp⟩

lemma replaceRuns_head? (p : Char → Bool) (r : Char) :
    ∀ l, (replaceRuns p r l).head? =
      l.head?.map (fun c => if p c then r else c)
  | [] => rfl
  | [c0] => by
    rw [replaceRuns]
    split <;> simp_all
  | c1 :: c2 :: rest => by
    rw [replaceRuns]
    split
    · rename_i hboth
      rw [replaceRuns_head? p r (c2 :: rest)]
      rcases Bool.and_eq_true_iff.mp hboth with ⟨h1, h2⟩
      simp [h1, h2]
    · simp

lemma hasDoubleDash_cons_false {c : Char} {X : List Char}
    (hX : hasDoubleDash X = false)
    (hhead : X.head? = some '-' → (c == '-') = false) :
    hasDoubleDash (c :: X) = false := by
  cases X with
  | nil => rfl
  | cons x xs =>
    have h1 : (c == '-' && x == '-') = false := by
      cases hx : (x == '-') with
      | false => simp [hx]
      | true =>
        have hx' : x = '-' := by simpa using hx
        have hcf := hhead (by simp [hx'])
        simp [hcf]
    show ((c == '-' && x == '-') || hasDoubleDash (x :: xs)) = false
    rw [h1, hX]
    rfl

lemma hasDoubleDash_collapseDashRuns :
    ∀ l, hasDoubleDash (collapseDashRuns l) = false
  | [] => rfl
  | [c0] => by
    unfold collapseDashRuns
    rw [replaceRuns]
    split <;> rfl
  | c1 :: c2 :: rest => by
    unfold collapseDashRuns
    rw [replaceRuns]
    split
    · exact hasDoubleDash_collapseDashRuns (c2 :: rest)
    · rename_i hboth
      refine hasDoubleDash_cons_false (hasDoubleDash_collapseDashRuns (c2 :: rest)) ?_
      intro hhead
      rw [replaceRuns_head? isDash '-' (c2 :: rest)] at hhead
      have hc2 : c2 = '-' := by
        by_cases h2 : isDash c2 = true
        · simpa [isDash] using h2
        · simp [h2] at hhead
          exact hhead
      have hc1 : isDash c1 = false := by
        by_cases h1 : isDash c1 = true
        · exfalso
          refine hboth ?_
          rw [h1, (show isDash c2 = true by simp [isDash, hc2])]
          rfl
        · simpa using h1
      rw [if_neg (by simp [hc1])]
      simpa [isDash] using hc1

lemma hasDoubleDash_append_left (l2 : List Char) :
    ∀ {l1 : List Char}, hasDoubleDash (l1 ++ l2) = false →
      hasDoubleDash l1 = false := by
  intro l1
  induction l1 with
  | nil => intro _; rfl
  | cons a t ih =>
    cases t with
    | nil => intro _; rfl
    | cons b t' =>
      intro h
      have h' : ((a == '-' && b == '-') || hasDoubleDash ((b :: t') ++ l2)) = false := h
      rcases Bool.or_eq_false_iff.mp h' with ⟨h1, h2⟩
      show ((a == '-' && b == '-') || hasDoubleDash (b :: t')) = false
      rw [h1, ih h2]
      rfl

lemma hasDoubleDash_tail {l : List Char} (h : hasDoubleDash l = false) :
    hasDoubleDash l.tail = false := by
  cases l with
  | nil => rfl
  | cons a t =>
    cases t with
    | nil => rfl
    | cons b t' =>
      have h' : ((a == '-' && b == '-') || hasDoubleDash (b :: t')) = false := h
      exact (Bool.or_eq_false_iff.mp h').2

lemma hasDoubleDash_dropLast {l : List Char} (h : hasDoubleDash l = false) :
    hasDoubleDash l.dropLast = false := by
  rcases eq_or_ne l [] with rfl | hne
  · rfl
  · refine hasDoubleDash_append_left [l.getLast hne] ?_
    rw [List.dropLast_append_getLast hne]
    exact h

lemma head?_tail_ne_dash {l : List Char} (h : hasDoubleDash l = false)
    (hh : l.head? = some '-') : l.tail.head? = some '-' → False := by
  intro ht
  cases l with
  | nil => simp at hh
  | cons a t =>
    cases t with
    | nil => simp at ht
    | cons b t' =>
      have ha : a = '-' := by simpa using hh
      have hb : b = '-' := by simpa using ht
      have h' : ((a == '-' && b == '-') || hasDoubleDash (b :: t')) = false := h
      rw [ha, hb] at h'
      simp at h'

lemma getLast?_dropLast_ne_dash :
    ∀ {l : List Char}, hasDoubleDash l = false →
      l.getLast? = some '-' → l.dropLast.getLast? = some '-' → False := by
  intro l
  induction l with
  | nil => intro _ h _; simp at h
  | cons a t ih =>
    cases t with
    | nil => intro _ _ h; simp at h
    | cons b t' =>
      intro hd hl hdl
      rw [List.getLast?_cons_cons] at hl
      rw [List.dropLast_cons₂] at hdl
      have h' : ((a == '-' && b == '-') || hasDoubleDash (b :: t')) = false := hd
      rcases Bool.or_eq_false_iff.mp h' with ⟨h1, h2⟩
      cases t' with
      | nil =>
        have ha : a = '-' := by simpa using hdl
        have hb : b = '-' := by simpa using hl
        rw [ha, hb] at h1
        simp at h1
      | cons e t'' =>
        have hne : (b :: e :: t'').dropLast ≠ [] := by
          rw [List.dropLast_cons₂]
          exact List.cons_ne_nil _ _
        have heq : (a :: (b :: e :: t'').dropLast).getLast? =
            ((b :: e :: t'').dropLast).getLast? := by
          cases hcase : (b :: e :: t'').dropLast with
          | nil => exact absurd hcase hne
          | cons x xs => exact List.getLast?_cons_cons
        rw [heq] at hdl
        exact ih h2 hl hdl

lemma head?_dropLast_cases (l : List Char) :
    l.dropLast.head? = l.head? ∨ l.dropLast = [] := by
  cases l with
  | nil => exact Or.inr rfl
  | cons a t =>
    cases t with
    | nil => exact Or.inr rfl
    | cons b t' =>
      refine Or.inl ?_
      rw [List.dropLast_cons₂]
      rfl

lemma stripLeadDash_subset (l : List Char) :
    ∀ c ∈ stripLeadDash l, c ∈ l := by
  unfold stripLeadDash
  split
  · exact fun c hc => (List.tail_sublist l).subset hc
  · exact fun c hc => hc

lemma stripLeadDash_hdd {l : List Char} (h : hasDoubleDash l = false) :
    hasDoubleDash (stripLeadDash l) = false := by
  unfold stripLeadDash
  split
  · exact hasDoubleDash_tail h
  · exact h

lemma stripLeadDash_head {l : List Char} (h : hasDoubleDash l = false) :
    (stripLeadDash l).head? = some '-' → False := by
  unfold stripLeadDash
  split
  · rename_i hcond
    exact head?_tail_ne_dash h (by simpa using hcond)
  · rename_i hcond
    intro hh
    exact hcond (by simp [hh])

lemma stripTrailDash_subset (l : List Char) :
    ∀ c ∈ stripTrailDash l, c ∈ l := by
  unfold stripTrailDash
  split
  · exact fun c hc => (List.dropLast_sublist l).subset hc
  · exact fun c hc => hc

lemma stripTrailDash_hdd {l : List Char} (h : hasDoubleDash l = false) :
    hasDoubleDash (stripTrailDash l) = false := by
  unfold stripTrailDash
  split
  · exact hasDoubleDash_dropLast h
  · exact h

lemma stripTrailDash_last {l : List Char} (h : hasDoubleDash l = false) :
    (stripTrailDash l).getLast? = some '-' → False := by
  unfold stripTrailDash
  split
  · rename_i hcond
    exact getLast?_dropLast_ne_dash h (by simpa using hcond)
  · rename_i hcond
    intro hh
    exact hcond (by simp [hh])

lemma stripTrailDash_head {l : List Char} (h : l.head? = some '-' → False) :
    (stripTrailDash l).head? = some '-' → False := by
  unfold stripTrailDash
  split
  · intro hh
    rcases head?_dropLast_cases l with he | he
    · rw [he] at hh
      exact h hh
    · rw [he] at hh
      simp at hh
  · exact h

lemma stripOuterDashes_props {l : List Char} (hdd : hasDoubleDash l = false) :
    (∀ c ∈ stripOuterDashes l, c ∈ l) ∧
    hasDoubleDash (stripOuterDashes l) = false ∧
    headIsDash (stripOuterDashes l) = false ∧
    lastIsDash (stripOuterDashes l) = false := by
  unfold stripOuterDashes
  refine ⟨?_, ?_, ?_, ?_⟩
  · exact fun c hc => stripLeadDash_subset l c (stripTrailDash_subset _ c hc)
  · exact stripTrailDash_hdd (stripLeadDash_hdd hdd)
  · unfold headIsDash
    rw [beq_eq_false_iff_ne]
    exact fun h => stripTrailDash_head (stripLeadDash_head hdd) h
  · unfold lastIsDash
    rw [beq_eq_false_iff_ne]
    exact fun h => stripTrailDash_last (stripLeadDash_hdd hdd) h

lemma replaceWsRuns_all_slugChar {l : List Char}
    (hl : ∀ c ∈ l, isKeepChar c = true) :
    ∀ c ∈ replaceWsRuns l, isSlugChar c = true := by
  intro c hc
  rcases replaceRuns_mem isJsWs '-' l c hc with rfl | ⟨hm, hw⟩
  · decide
  · have hk := hl c hm
    simp only [isKeepChar, hw, Bool.or_false, Bool.false_or] at hk
    simpa [isSlugChar] using hk

lemma collapseDashRuns_all_slugChar {l : List Char}
    (hl : ∀ c ∈ l, isSlugChar c = true) :
    ∀ c ∈ collapseDashRuns l, isSlugChar c = true := by
  intro c hc
  rcases replaceRuns_mem isDash '-' l c hc with rfl | ⟨hm, _⟩
  · decide
  · exact hl c hm

/-- **C1.** For every title string, `createSlug` yields a string whose
characters are all lowercase ASCII letters, digits, or dashes, which never
contains two consecutive dashes, and which neither starts nor ends with a
dash. -/
theorem createSlug_wellFormed (title : String) :
    (createSlug title).data.all isSlugChar = true ∧
    hasDoubleDash (createSlug title).data = false ∧
    headIsDash (createSlug title).data = false ∧
    lastIsDash (createSlug title).data = false := by
  show (createSlugChars title.data).all isSlugChar = true ∧
    hasDoubleDash (createSlugChars title.data) = false ∧
    headIsDash (createSlugChars title.data) = false ∧
    lastIsDash (createSlugChars title.data) = false
  unfold createSlugChars
  set base := (jsTrim (title.data.map jsToLower)).filter isKeepChar with hbase
  have hkeep : ∀ c ∈ base, isKeepChar c = true := by
    intro c hc
    exact List.of_mem_filter hc
  have hddc := hasDoubleDash_collapseDashRuns (replaceWsRuns base)
  obtain ⟨hsub, hdd2, hhead, hlast⟩ := stripOuterDashes_props hddc
  refine ⟨?_, hdd2, hhead, hlast⟩
  rw [List.all_eq_true]
  intro c hc
  exact collapseDashRuns_all_slugChar (replaceWsRuns_all_slugChar hkeep) c (hsub c hc)


/-- Digit test (regex `\d`). -/
def isDigitChar (c : Char) : Bool := '0' ≤ c && c ≤ '9'

/-- Numeric value of a digit character. -/
def digitVal (c : Char) : Nat := c.toNat - '0'.toNat

/-- Model of the anchored regex `^(\d{1,2}):(\d{2})$` used by
`normalizeTime`: the numeric hour and minute groups when the input
matches, `none` otherwise. -/
def matchTime : List Char → Option (Nat × Nat)
  | [h1, ':', m1, m2] =>
    if (isDigitChar h1 && isDigitChar m1 && isDigitChar m2) = true then
      some (digitVal h1, 10 * digitVal m1 + digitVal m2)
    else none
  | [h1, h2, ':', m1, m2] =>
    if (isDigitChar h1 && isDigitChar h2 && isDigitChar m1 && isDigitChar m2) = true then
      some (10 * digitVal h1 + digitVal h2, 10 * digitVal m1 + digitVal m2)
    else none
  | _ => none

/-- Model of `Number.prototype.toString` on a small natural followed by
`padStart(2, "0")`. -/
def padTwo (n : Nat) : List Char :=
  let s := Nat.toDigits 10 n
  if s.length < 2 then '0' :: s else s

/-- `normalizeTime` from `src/database/event.model.ts`: trim, match
`H:mm`/`HH:mm`, range-check hour and minute, re-emit zero-padded. -/
def normalizeTimeChars (time : List Char) : Except String (List Char) :=
  let trimmed := jsTrim time
  match matchTime trimmed with
  | none => .error "Invalid event time. Expected format HH:mm (24-hour)"
  | some (hour, minute) =>
    if hour < 0 ∨ hour > 23 ∨ minute < 0 ∨ minute > 59 then
      .error "Invalid event time range"
    else
      .ok (padTwo hour ++ ':' :: padTwo minute)

/-- String-level wrapper for `normalizeTime`. -/
def normalizeTime (time : String) : Except String String :=
  (normalizeTimeChars time.data).map (fun l => ⟨l⟩)

/-- Spec-side shape predicate: `t` is `H:mm` or `HH:mm` (digits only) with
numeric hour `h` and minute `m`. -/
def timeShape (t : List Char) (h m : Nat) : Prop :=
  (∃ d1 n1 n2, t = [d1, ':', n1, n2] ∧
    isDigitChar d1 = true ∧ isDigitChar n1 = true ∧ isDigitChar n2 = true ∧
    h = digitVal d1 ∧ m = 10 * digitVal n1 + digitVal n2) ∨
  (∃ d1 d2 n1 n2, t = [d1, d2, ':', n1, n2] ∧
    isDigitChar d1 = true ∧ isDigitChar d2 = true ∧
    isDigitChar n1 = true ∧ isDigitChar n2 = true ∧
    h = 10 * digitVal d1 + digitVal d2 ∧ m = 10 * digitVal n1 + digitVal n2)

lemma matchTime_eq_some_iff {t : List Char} {h m : Nat} :
    matchTime t = some (h, m) ↔ timeShape t h m := by
  constructor
  · intro hmt
    unfold matchTime at hmt
    split at hmt
    · split at hmt
      · rename_i hdig
        rcases Bool.and_eq_true_iff.mp hdig with ⟨hdig, hn2⟩
        rcases Bool.and_eq_true_iff.mp hdig with ⟨hd1, hn1⟩
        injection hmt with hpair
        exact Or.inl ⟨_, _, _, rfl, hd1, hn1, hn2,
          (congrArg Prod.fst hpair).symm, (congrArg Prod.snd hpair).symm⟩
      · exact absurd hmt (by simp)
    · split at hmt
      · rename_i hdig
        rcases Bool.and_eq_true_iff.mp hdig with ⟨hdig, hn2⟩
        rcases Bool.and_eq_true_iff.mp hdig with ⟨hdig, hn1⟩
        rcases Bool.and_eq_true_iff.mp hdig with ⟨hd1, hd2⟩
        injection hmt with hpair
        exact Or.inr ⟨_, _, _, _, rfl, hd1, hd2, hn1, hn2,
          (congrArg Prod.fst hpair).symm, (congrArg Prod.snd hpair).symm⟩
      · exact absurd hmt (by simp)
    · exact absurd hmt (by simp)
  · intro hs
    rcases hs with ⟨d1, n1, n2, rfl, hd1, hn1, hn2, rfl, rfl⟩ |
      ⟨d1, d2, n1, n2, rfl, hd1, hd2, hn1, hn2, rfl, rfl⟩
    · simp [matchTime, hd1, hn1, hn2]
    · simp [matchTime, hd1, hd2, hn1, hn2]

/-- **C5.** `normalizeTime "9:5"` fails with the format error (minute must
be two digits); `normalizeTime "09:05"` returns `"09:05"`;
`normalizeTime "24:00"` fails with the range error; and in general the
normalizer succeeds exactly on inputs whose trimmed form is `H:mm` or
`HH:mm` with hour at most 23 and minute at most 59, producing the
zero-padded `HH:mm` rendering. -/
theorem normalizeTime_spec :
    normalizeTime "9:5" = .error "Invalid event time. Expected format HH:mm (24-hour)" ∧
    normalizeTime "09:05" = .ok "09:05" ∧
    normalizeTime "24:00" = .error "Invalid event time range" ∧
    ∀ (s r : List Char),
      normalizeTimeChars s = .ok r ↔
        ∃ h m, timeShape (jsTrim s) h m ∧ h ≤ 23 ∧ m ≤ 59 ∧
          r = padTwo h ++ ':' :: padTwo m := by
  refine ⟨rfl, rfl, rfl, ?_⟩
  intro s r
  simp only [normalizeTimeChars]
  cases hmt : matchTime (jsTrim s) with
  | none =>
    simp only []
    constructor
    · intro hok
      exact absurd hok (by simp)
    · rintro ⟨h, m, hs, -, -, -⟩
      exact absurd (matchTime_eq_some_iff.mpr hs) (by rw [hmt]; simp)
  | some hm =>
    obtain ⟨h0, m0⟩ := hm
    simp only []
    split
    · rename_i hrange
      constructor
      · intro hok
        exact absurd hok (by simp)
      · rintro ⟨h, m, hs, hh, hmle, -⟩
        have := matchTime_eq_some_iff.mpr hs
        rw [hmt] at this
        injection this with hpair
        have hh0 : h = h0 := (congrArg Prod.fst hpair).symm
        have hm0 : m = m0 := (congrArg Prod.snd hpair).symm
        subst hh0; subst hm0
        rcases hrange with hr | hr | hr | hr <;> omega
    · rename_i hrange
      push_neg at hrange
      obtain ⟨-, hh23, -, hm59⟩ := hrange
      constructor
      · intro hok
        have hr : r = padTwo h0 ++ ':' :: padTwo m0 := by
          injection hok with he
          exact he.symm
        exact ⟨h0, m0, matchTime_eq_some_iff.mp hmt, by omega, by omega, hr⟩
      · rintro ⟨h, m, hs, -, -, rfl⟩
        have := matchTime_eq_some_iff.mpr hs
        rw [hmt] at this
        injection this with hpair
        have hh0 : h = h0 := (congrArg Prod.fst hpair).symm
        have hm0 : m = m0 := (congrArg Prod.snd hpair).symm
        subst hh0; subst hm0
        rfl

/-- Closed instance of the general clause of `normalizeTime_spec`,
obtained by applying the theorem at a concrete input. -/
theorem normalizeTime_spec_witness :
    normalizeTimeChars "7:30".data = .ok "07:30".data :=
  (normalizeTime_spec.2.2.2 "7:30".data "07:30".data).mpr
    ⟨7, 30, Or.inl ⟨'7', '3', '0', rfl, rfl, rfl, rfl, rfl, rfl⟩,
      by omega, by omega, rfl⟩


/-- Parse an unsigned decimal numeral; `none` when empty or when a
non-digit is present. -/
def parseNatDigits (l : List Char) : Option Nat :=
  if l ≠ [] ∧ l.all isDigitChar then
    some (l.foldl (fun acc c => 10 * acc + digitVal c) 0)
  else none

/-- Days in a month of the proleptic Gregorian calendar. -/
def daysInMonth (y m : Nat) : Nat :=
  if m = 2 then
    if (y % 4 = 0 ∧ y % 100 ≠ 0) ∨ y % 400 = 0 then 29 else 28
  else if m = 4 ∨ m = 6 ∨ m = 9 ∨ m = 11 then 30
  else 31

/-- Count of days since the Unix epoch (1970-01-01) of the Gregorian date
`y-m-d` (civil-to-days conversion). -/
def daysFromCivil (y m d : Int) : Int :=
  let y' := if m ≤ 2 then y - 1 else y
  let era := (if 0 ≤ y' then y' else y' - 399) / 400
  let yoe := y' - era * 400
  let mp := (m + 9) % 12
  let doy := (153 * mp + 2) / 5 + d - 1
  let doe := yoe * 365 + yoe / 4 - yoe / 100 + doy
  era * 146097 + doe - 719468

/-- Gregorian date `(y, m, d)` of the day lying `z0` days from the Unix
epoch (days-to-civil conversion). -/
def civilFromDays (z0 : Int) : Int × Int × Int :=
  let z := z0 + 719468
  let era := (if 0 ≤ z then z else z - 146096) / 146097
  let doe := z - era * 146097
  let yoe := (doe - doe / 1460 + doe / 36524 - doe / 146096) / 365
  let y := yoe + era * 400
  let doy := doe - (365 * yoe + yoe / 4 - yoe / 100)
  let mp := (5 * doy + 2) / 153
  let d := doy - (153 * mp + 2) / 5 + 1
  let m := if mp < 10 then mp + 3 else mp - 9
  (if m ≤ 2 then y + 1 else y, m, d)

/-- Zero-pad a numeral to four digits (ISO year rendering). -/
def padFour (n : Nat) : List Char :=
  let s := Nat.toDigits 10 n
  if s.length < 4 then List.replicate (4 - s.length) '0' ++ s else s

/-- Model of the JavaScript builtins
`Date.prototype.toISOString().split("T")[0]` applied to a timestamp lying
`days` whole days from the epoch: the `YYYY-MM-DD` rendering of the UTC
calendar date. -/
def isoDateChars (days : Int) : List Char :=
  let c := civilFromDays days
  padFour c.1.toNat ++ '-' :: (padTwo c.2.1.toNat ++ '-' :: padTwo c.2.2.toNat)

/-- Model of the JavaScript builtin `new Date(string)` parser in an
environment whose local timezone is UTC, restricted to the dash-separated
numeric year-month-day inputs this repository's date strings use
(`YYYY-M-D` through `YYYY-MM-DD`); every other input is treated as
unparseable (`NaN` timestamp).  Returns the day count from the epoch. -/
def jsParseDate (l : List Char) : Option Int :=
  match l.splitOn '-' with
  | [ys, ms, ds] =>
    match parseNatDigits ys, parseNatDigits ms, parseNatDigits ds with
    | some y, some m, some d =>
      if ys.length = 4 ∧ ms.length ≤ 2 ∧ ds.length ≤ 2 ∧
          1 ≤ m ∧ m ≤ 12 ∧ 1 ≤ d ∧ d ≤ daysInMonth y m then
        some (daysFromCivil y m d)
      else none
    | _, _, _ => none
  | _ => none

/-- `normalizeDate` from `src/database/event.model.ts`: parse with the
date builtin, throw on `NaN`, otherwise emit the UTC date-only ISO
string. -/
def normalizeDateChars (date : List Char) : Except String (List Char) :=
  match jsParseDate date with
  | none => .error "Invalid event date provided"
  | some t => .ok (isoDateChars t)

/-- String-level wrapper for `normalizeDate`. -/
def normalizeDate (date : String) : Except String String :=
  (normalizeDateChars date.data).map (fun l => ⟨l⟩)

/-- **C2.** `normalizeDate "2024-3-5"` returns `"2024-03-05"`;
`normalizeDate "not-a-date"` fails with the invalid-date error; and for
every parseable input the result is exactly the date-only ISO rendering
(UTC) of the parsed timestamp, while every unparseable input yields the
invalid-date error. -/
theorem normalizeDate_spec :
    normalizeDate "2024-3-5" = .ok "2024-03-05" ∧
    normalizeDate "not-a-date" = .error "Invalid event date provided" ∧
    (∀ (s : List Char) (t : Int), jsParseDate s = some t →
      normalizeDateChars s = .ok (isoDateChars t)) ∧
    (∀ (s : List Char), jsParseDate s = none →
      normalizeDateChars s = .error "Invalid event date provided") := by
  refine ⟨rfl, rfl, ?_, ?_⟩
  · intro s t h
    simp [normalizeDateChars, h]
  · intro s h
    simp [normalizeDateChars, h]

/-- Closed instance of the general clauses of `normalizeDate_spec` at a
concrete parseable input. -/
theorem normalizeDate_spec_witness :
    normalizeDateChars "2019-12-31".data = .ok (isoDateChars 18261) :=
  normalizeDate_spec.2.2.1 "2019-12-31".data 18261 (by decide)


/-- The character class `[^\s@]` of `emailRegex`. -/
def okEmailChar (c : Char) : Bool := !(isJsWs c) && !(c == '@')

/-- The run of characters before the first `@` of the input. -/
def emailLocal (s : List Char) : List Char :=
  s.takeWhile (fun c => !(c == '@'))

/-- The input from its first `@` on (empty when there is no `@`). -/
def emailRest (s : List Char) : List Char :=
  s.dropWhile (fun c => !(c == '@'))

/-- Model of `emailRegex` = `^[^\s@]+@[^\s@]+\.[^\s@]+$` from
`src/database/booking.model.ts`: a nonempty `[^\s@]` run, an `@`, then a
remainder of `[^\s@]` characters (so no second `@` and no whitespace)
containing a `.` that is neither its first nor its last character. -/
def emailMatch (s : List Char) : Bool :=
  !(emailLocal s).isEmpty && (emailLocal s).all okEmailChar &&
  !(emailRest s).isEmpty && (emailRest s).tail.all okEmailChar &&
  (((emailRest s).tail.drop 1).dropLast.contains '.')

/-- The decompositions accepted by `emailRegex`: `a@b.c` with `a`, `b`,
`c` nonempty and free of whitespace and `@`. -/
def emailShape (s : List Char) : Prop :=
  ∃ a b c, s = a ++ '@' :: (b ++ '.' :: c) ∧ a ≠ [] ∧ b ≠ [] ∧ c ≠ [] ∧
    (∀ x ∈ a, okEmailChar x = true) ∧ (∀ x ∈ b, okEmailChar x = true) ∧
    (∀ x ∈ c, okEmailChar x = true)

/-- The acceptance condition exactly as the claim words it: a nonempty
local part, an `@`, a nonempty domain containing at least one dot, and no
part containing whitespace or a further `@`. -/
def claimedEmailShape (s : List Char) : Prop :=
  ∃ a d, s = a ++ '@' :: d ∧ a ≠ [] ∧ d ≠ [] ∧
    (∀ x ∈ a, okEmailChar x = true) ∧ (∀ x ∈ d, okEmailChar x = true) ∧
    '.' ∈ d

lemma middle_dot_decomp {r : List Char} (h : '.' ∈ (r.drop 1).dropLast) :
    ∃ b c, r = b ++ '.' :: c ∧ b ≠ [] ∧ c ≠ [] := by
  cases r with
  | nil => simp at h
  | cons r0 rest =>
    have h' : '.' ∈ rest.dropLast := by simpa using h
    have hrest_ne : rest ≠ [] := by
      intro he
      rw [he] at h'
      simp at h'
    obtain ⟨l1, l2, hsplit⟩ := List.append_of_mem h'
    have hr : rest.dropLast ++ [rest.getLast hrest_ne] = rest :=
      List.dropLast_append_getLast hrest_ne
    refine ⟨r0 :: l1, l2 ++ [rest.getLast hrest_ne], ?_,
      List.cons_ne_nil _ _, by simp⟩
    conv_lhs => rw [← hr, hsplit]
    simp

lemma emailMatch_iff_emailShape (s : List Char) :
    emailMatch s = true ↔ emailShape s := by
  constructor
  · intro hm
    unfold emailMatch at hm
    simp only [Bool.and_eq_true] at hm
    obtain ⟨⟨⟨⟨hA, hB⟩, hC⟩, hD⟩, hE⟩ := hm
    have hrest_ne : emailRest s ≠ [] := by
      intro he
      rw [he] at hC
      simp at hC
    obtain ⟨x, xs, hx⟩ := List.exists_cons_of_ne_nil hrest_ne
    have hxat : x = '@' := by
      have hnot := List.head?_dropWhile_not (fun c => !(c == '@')) s
      rw [show s.dropWhile (fun c => !(c == '@')) = emailRest s from rfl, hx] at hnot
      simp only [List.head?_cons] at hnot
      simpa using hnot
    have hs : s = emailLocal s ++ '@' :: xs := by
      rw [← hxat, ← hx]
      exact (List.takeWhile_append_dropWhile ..).symm
    have htail : (emailRest s).tail = xs := by rw [hx]; rfl
    rw [htail] at hD hE
    obtain ⟨b, c, hbc, hb, hc⟩ := middle_dot_decomp
      (List.elem_iff.mp (by simpa [List.contains] using hE))
    have hall : ∀ y ∈ xs, okEmailChar y = true := List.all_eq_true.mp hD
    refine ⟨emailLocal s, b, c, ?_, by simpa using hA, hb, hc, ?_, ?_, ?_⟩
    · conv_lhs => rw [hs]
      rw [hbc]
    · exact List.all_eq_true.mp hB
    · intro y hy
      exact hall y (by rw [hbc]; exact List.mem_append_left _ hy)
    · intro y hy
      exact hall y (by
        rw [hbc]
        exact List.mem_append_right _ (List.mem_cons_of_mem _ hy))
  · rintro ⟨a, b, c, rfl, ha, hb, hc, hoka, hokb, hokc⟩
    have hpa : ∀ x ∈ a, (!(x == '@')) = true := by
      intro x hx
      have := hoka x hx
      simp only [okEmailChar, Bool.and_eq_true] at this
      exact this.2
    have hlocal : emailLocal (a ++ '@' :: (b ++ '.' :: c)) = a := by
      unfold emailLocal
      rw [List.takeWhile_append_of_pos hpa, List.takeWhile_cons_of_neg (by simp)]
      simp
    have hrest : emailRest (a ++ '@' :: (b ++ '.' :: c)) = '@' :: (b ++ '.' :: c) := by
      unfold emailRest
      rw [List.dropWhile_append_of_pos hpa, List.dropWhile_cons_of_neg (by simp)]
    unfold emailMatch
    rw [hlocal, hrest]
    simp only [Bool.and_eq_true]
    obtain ⟨b0, bt, hb0⟩ := List.exists_cons_of_ne_nil hb
    refine ⟨⟨⟨⟨by simpa using ha, ?_⟩, by simp⟩, ?_⟩, ?_⟩
    · simpa [List.all_eq_true] using hoka
    · show ((b ++ '.' :: c).all okEmailChar) = true
      rw [List.all_eq_true]
      intro y hy
      rcases List.mem_append.mp hy with hyb | hyc
      · exact hokb y hyb
      · rcases List.mem_cons.mp hyc with rfl | hyc
        · decide
        · exact hokc y hyc
    · show (((b ++ '.' :: c).drop 1).dropLast.contains '.') = true
      rw [hb0]
      have hdrop : ((b0 :: bt ++ '.' :: c).drop 1) = bt ++ '.' :: c := rfl
      rw [hdrop, List.dropLast_append_cons]
      have hdl : ('.' :: c).dropLast = '.' :: c.dropLast := by
        rw [List.dropLast_cons_of_ne_nil hc]
      rw [hdl]
      simp [List.contains]

/-- **C7 counterexample.** The input `"a@b."` has the claimed shape
(local part `a`, domain `b.` containing a dot, no whitespace or extra
`@`), yet `emailRegex` rejects it: the claim's "accepts exactly" fails. -/
theorem emailRegex_claim_counterexample :
    claimedEmailShape "a@b.".data ∧ emailMatch "a@b.".data = false := by
  constructor
  · refine ⟨['a'], ['b', '.'], rfl, by simp, by simp, ?_, ?_, by decide⟩
    · intro x hx
      have : x = 'a' := by simpa using hx
      subst this
      decide
    · intro x hx
      rcases (by simpa using hx : x = 'b' ∨ x = '.') with rfl | rfl <;> decide
  · decide

/-- **C7 (amended).** `"a@b"` is rejected and `"a@b.com"` accepted; in
general `emailRegex` accepts exactly the strings of the form `a@b.c`
where `a`, `b`, `c` are nonempty and contain neither whitespace nor `@`
(so the domain must have a dot with at least one character on each side;
the claim as stated also admitted domains whose only dot is first or
last, which the regex rejects). -/
theorem emailMatch_spec :
    emailMatch "a@b".data = false ∧
    emailMatch "a@b.com".data = true ∧
    ∀ s : List Char, emailMatch s = true ↔ emailShape s := by
  refine ⟨by decide, by decide, emailMatch_iff_emailShape⟩

/-- Closed instance of the general clause of `emailMatch_spec`: the
characterization applied at a concrete accepted input. -/
theorem emailMatch_spec_witness : emailShape "x@y.z".data :=
  (emailMatch_spec.2.2 "x@y.z".data).mp (by decide)


/-- The string fields of an Event document read by its pre-save hook.  A
field is `none` when absent from the document (the hook's
`typeof value !== "string"` case). -/
structure EventDoc where
  title : Option String
  slug : Option String
  description : Option String
  overview : Option String
  image : Option String
  venue : Option String
  location : Option String
  date : Option String
  time : Option String
  mode : Option String
  audience : Option String
  organizer : Option String
deriving DecidableEq

/-- Which of the fields the hook queries with `this.isModified(...)` are
marked modified on this save. -/
structure ModifiedSet where
  title : Bool
  date : Bool
  time : Bool
deriving DecidableEq

/-- JavaScript truthiness of an optional string: absent values and the
empty string are falsy. -/
def strTruthy : Option String → Bool
  | none => false
  | some s => !(s.data.isEmpty)

/-- Whether a field value fails the hook's check
`typeof value !== "string" || value.trim().length === 0`. -/
def fieldBad : Option String → Bool
  | none => true
  | some v => (jsTrim v.data).isEmpty

/-- The hook's `requiredFields` list, in source order, paired with each
field's value (note: `slug`, `agenda` and `tags` are not in it). -/
def requiredFields (e : EventDoc) : List (String × Option String) :=
  [("title", e.title), ("description", e.description),
   ("overview", e.overview), ("image", e.image), ("venue", e.venue),
   ("location", e.location), ("date", e.date), ("time", e.time),
   ("mode", e.mode), ("audience", e.audience), ("organizer", e.organizer)]

/-- The first field failing the emptiness check, scanning in hook order
(the hook throws at the first failure). -/
def firstBadField : List (String × Option String) → Option String
  | [] => none
  | (name, v) :: rest => if fieldBad v then some name else firstBadField rest

/-- The hook's slug assignment:
`if (!this.slug || this.isModified("title")) this.slug = createSlug(this.title)`. -/
def slugStep (e : EventDoc) (mtitle : Bool) : EventDoc :=
  if (!(strTruthy e.slug) || mtitle) = true then
    { e with slug := some (createSlug (e.title.getD "")) }
  else e

/-- The hook's `if (this.isModified("date")) this.date = normalizeDate(this.date)`. -/
def normDateStep (e : EventDoc) (mdate : Bool) : Except String EventDoc :=
  if mdate then
    match normalizeDate (e.date.getD "") with
    | .error msg => .error msg
    | .ok d => .ok { e with date := some d }
  else .ok e

/-- The hook's `if (this.isModified("time")) this.time = normalizeTime(this.time)`. -/
def normTimeStep (e : EventDoc) (mtime : Bool) : Except String EventDoc :=
  if mtime then
    match normalizeTime (e.time.getD "") with
    | .error msg => .error msg
    | .ok t => .ok { e with time := some t }
  else .ok e

/-- The Event pre-save hook from `src/database/event.model.ts`: the
required-fields check (throwing at the first bad field, before any
mutation), then slug assignment, then date and time normalization for
modified fields; a thrown error aborts the save. -/
def eventPreSave (e : EventDoc) (m : ModifiedSet) : Except String EventDoc :=
  match firstBadField (requiredFields e) with
  | some name =>
    .error ("Field \"" ++ name ++ "\" is required and cannot be empty.")
  | none =>
    match normDateStep (slugStep e m.title) m.date with
    | .error msg => .error msg
    | .ok e2 => normTimeStep e2 m.time

lemma normDateStep_ok {e : EventDoc} {md : Bool} {e2 : EventDoc}
    (h : normDateStep e md = .ok e2) : e2.slug = e.slug := by
  unfold normDateStep at h
  split at h
  · cases hnd : normalizeDate (e.date.getD "") with
    | error msg => rw [hnd] at h; exact Except.noConfusion h
    | ok d =>
      rw [hnd] at h
      injection h with h'
      subst h'
      rfl
  · injection h with h'
    subst h'
    rfl

lemma normTimeStep_ok {e : EventDoc} {mt : Bool} {e2 : EventDoc}
    (h : normTimeStep e mt = .ok e2) : e2.slug = e.slug := by
  unfold normTimeStep at h
  split at h
  · cases hnt : normalizeTime (e.time.getD "") with
    | error msg => rw [hnt] at h; exact Except.noConfusion h
    | ok t =>
      rw [hnt] at h
      injection h with h'
      subst h'
      rfl
  · injection h with h'
    subst h'
    rfl

/-- **C8.** On a successful Event save: when the title is not modified
and the slug is present (truthy, matching the hook's `!this.slug` test),
the slug is left unchanged; when the title is modified or the slug is
absent, the slug becomes `createSlug(title)`. -/
theorem eventPreSave_slugPolicy (e : EventDoc) (m : ModifiedSet)
    (e' : EventDoc) (h : eventPreSave e m = .ok e') :
    (m.title = false → strTruthy e.slug = true → e'.slug = e.slug) ∧
    ((m.title = true ∨ strTruthy e.slug = false) →
      e'.slug = some (createSlug (e.title.getD ""))) := by
  unfold eventPreSave at h
  cases hfb : firstBadField (requiredFields e) with
  | some name => rw [hfb] at h; exact Except.noConfusion h
  | none =>
    rw [hfb] at h
    cases hnd : normDateStep (slugStep e m.title) m.date with
    | error msg => rw [hnd] at h; exact Except.noConfusion h
    | ok e2 =>
      rw [hnd] at h
      have hs2 : e2.slug = (slugStep e m.title).slug := normDateStep_ok hnd
      have hs3 : e'.slug = e2.slug := normTimeStep_ok h
      constructor
      · intro hmt hslug
        rw [hs3, hs2]
        unfold slugStep
        rw [if_neg (by rw [hslug, hmt]; simp)]
      · intro hcase
        rw [hs3, hs2]
        unfold slugStep
        rcases hcase with hmt | hslug
        · rw [if_pos (by rw [hmt]; simp)]
        · rw [if_pos (by rw [hslug]; simp)]

/-- A fully populated document whose slug is present; re-saving it with
nothing modified leaves the slug alone. -/
def sampleEvent : EventDoc :=
  { title := some "Tech Summit 2024", slug := some "old-slug",
    description := some "d", overview := some "o", image := some "i",
    venue := some "v", location := some "l", date := some "2024-03-05",
    time := some "10:30", mode := some "online", audience := some "devs",
    organizer := some "org" }

/-- Closed instance of `eventPreSave_slugPolicy` on `sampleEvent` with an
unmodified title. -/
theorem eventPreSave_slugPolicy_witness :
    (false = false → strTruthy sampleEvent.slug = true →
      sampleEvent.slug = sampleEvent.slug) ∧
    ((false = true ∨ strTruthy sampleEvent.slug = false) →
      sampleEvent.slug = some (createSlug (sampleEvent.title.getD ""))) :=
  eventPreSave_slugPolicy sampleEvent ⟨false, false, false⟩ sampleEvent (by rfl)

lemma firstBadField_finds :
    ∀ (l : List (String × Option String)),
      (∃ p ∈ l, fieldBad p.2 = true) →
      ∃ name v, firstBadField l = some name ∧ (name, v) ∈ l ∧
        fieldBad v = true := by
  intro l
  induction l with
  | nil =>
    rintro ⟨p, hp, -⟩
    simp at hp
  | cons q rest ih =>
    rintro ⟨p, hp, hbad⟩
    obtain ⟨qn, qv⟩ := q
    by_cases hq : fieldBad qv = true
    · refine ⟨qn, qv, ?_, List.mem_cons_self _ _, hq⟩
      simp [firstBadField, hq]
    · have hrest : ∃ p ∈ rest, fieldBad p.2 = true := by
        rcases List.mem_cons.mp hp with rfl | hmem
        · exact absurd hbad hq
        · exact ⟨p, hmem, hbad⟩
      obtain ⟨name, v, hf, hm, hb⟩ := ih hrest
      refine ⟨name, v, ?_, List.mem_cons_of_mem _ hm, hb⟩
      simp [firstBadField, hq, hf]

/-- **C9.** When any required string field is absent or empty after
trimming, the save is rejected with the error naming that field (the
first failing one in hook order); the hook throws before the slug, date
or time steps, so the error is the field error even when the date or
time would also fail to normalize. -/
theorem eventPreSave_requiredError (e : EventDoc) (m : ModifiedSet)
    (hbad : ∃ p ∈ requiredFields e, fieldBad p.2 = true) :
    ∃ name v, (name, v) ∈ requiredFields e ∧ fieldBad v = true ∧
      eventPreSave e m =
        .error ("Field \"" ++ name ++ "\" is required and cannot be empty.") := by
  obtain ⟨name, v, hf, hm, hb⟩ := firstBadField_finds _ hbad
  refine ⟨name, v, hm, hb, ?_⟩
  unfold eventPreSave
  rw [hf]

/-- A document whose description is whitespace-only and whose date would
not even parse: the hook reports the description error. -/
def badEvent : EventDoc :=
  { title := some "T", slug := none, description := some "  ",
    overview := some "o", image := some "i", venue := some "v",
    location := some "l", date := some "zzz", time := some "99:99",
    mode := some "online", audience := some "devs", organizer := some "org" }

/-- Closed instance of `eventPreSave_requiredError` on `badEvent`. -/
theorem eventPreSave_requiredError_witness :
    ∃ name v, (name, v) ∈ requiredFields badEvent ∧ fieldBad v = true ∧
      eventPreSave badEvent ⟨true, true, true⟩ =
        .error ("Field \"" ++ name ++ "\" is required and cannot be empty.") :=
  eventPreSave_requiredError badEvent ⟨true, true, true⟩
    ⟨("description", some "  "), by decide, by decide⟩

/-- ASCII alphanumeric characters (either case, or a digit). -/
def isAsciiAlnum (c : Char) : Bool :=
  (65 ≤ c.toNat && c.toNat ≤ 90) || (97 ≤ c.toNat && c.toNat ≤ 122) ||
  (48 ≤ c.toNat && c.toNat ≤ 57)

/-- Characters whose `toLowerCase` image contains an ASCII alphanumeric:
the ASCII alphanumerics themselves plus U+212A and U+0130 (see
`jsToLower`). -/
def lowersToAlnum (c : Char) : Bool :=
  isAsciiAlnum c || c == '\u212A' || c == '\u0130'

lemma jsToLower_not_alnum {c : Char} (h : lowersToAlnum c = false) :
    isLowerAlnum (jsToLower c) = false := by
  unfold lowersToAlnum isAsciiAlnum at h
  simp only [Bool.or_eq_false_iff, Bool.and_eq_false_iff,
    decide_eq_false_iff_not, beq_eq_false_iff_ne] at h
  obtain ⟨⟨⟨⟨h1, h2⟩, h3⟩, hk⟩, hi⟩ := h
  unfold jsToLower Char.toLower
  rw [if_neg hk, if_neg hi]
  rw [if_neg (by omega)]
  unfold isLowerAlnum
  simp only [Bool.or_eq_false_iff, Bool.and_eq_false_iff,
    decide_eq_false_iff_not]
  constructor
  · rcases h2 with h | h
    · exact Or.inl (fun hle => by
        have hn : 97 ≤ c.toNat := hle
        omega)
    · exact Or.inr (fun hle => by
        have hn : c.toNat ≤ 122 := hle
        omega)
  · rcases h3 with h | h
    · exact Or.inl (fun hle => by
        have hn : 48 ≤ c.toNat := hle
        omega)
    · exact Or.inr (fun hle => by
        have hn : c.toNat ≤ 57 := hle
        omega)

lemma jsTrim_subset (l : List Char) : ∀ c ∈ jsTrim l, c ∈ l := by
  intro c hc
  unfold jsTrim at hc
  rw [List.mem_reverse] at hc
  have hc2 := List.dropWhile_subset _ hc
  rw [List.mem_reverse] at hc2
  exact List.dropWhile_subset _ hc2

lemma collapse_all_dash :
    ∀ l : List Char, (∀ c ∈ l, c = '-') →
      collapseDashRuns l = [] ∨ collapseDashRuns l = ['-']
  | [] => fun _ => Or.inl rfl
  | [c0] => by
    intro h
    have h0 := h c0 (List.mem_singleton_self _)
    subst h0
    unfold collapseDashRuns
    rw [replaceRuns, if_pos (by decide)]
    exact Or.inr rfl
  | c1 :: c2 :: rest => by
    intro h
    have h1 := h c1 (List.mem_cons_self _ _)
    have h2 := h c2 (List.mem_cons_of_mem _ (List.mem_cons_self _ _))
    unfold collapseDashRuns
    rw [replaceRuns, if_pos (by rw [h1, h2]; decide)]
    exact collapse_all_dash (c2 :: rest)
      (fun c hc => h c (List.mem_cons_of_mem _ hc))

/-- A document whose title has no alphanumeric characters at all. -/
def bangEvent : EventDoc :=
  { title := some "!!!", slug := none, description := some "d",
    overview := some "o", image := some "i", venue := some "v",
    location := some "l", date := some "2024-03-05", time := some "10:30",
    mode := some "online", audience := some "devs", organizer := some "org" }

/-- **C10 counterexample.** The title `"\u212A"` (KELVIN SIGN) contains
no ASCII alphanumeric characters, yet its slug is `"k"`, not the empty
string: `toLowerCase` maps U+212A to ASCII `k`, which the filter keeps.
So the claim's "any title containing no ASCII alphanumeric characters"
is too broad. -/
theorem createSlug_empty_counterexample :
    ("\u212A".data.all (fun c => !(isAsciiAlnum c))) = true ∧
    createSlug "\u212A" = "k" ∧
    createSlug "\u212A" ≠ "" := by
  refine ⟨by decide, by decide, by decide⟩

/-- **C10 (amended).** A title none of whose characters lowercases to an
ASCII alphanumeric (no ASCII alphanumerics, and neither U+212A nor
U+0130) yields the empty slug — `createSlug "!!!" = ""` in particular —
and the Event pre-save hook accepts the resulting empty slug, because
`slug` is not in its required-fields list. -/
theorem createSlug_empty_unrejected :
    (∀ t : List Char, (∀ c ∈ t, lowersToAlnum c = false) →
      createSlugChars t = []) ∧
    createSlug "!!!" = "" ∧
    eventPreSave bangEvent ⟨true, false, false⟩ =
      .ok { bangEvent with slug := some "" } := by
  refine ⟨?_, by decide, by rfl⟩
  intro t ht
  unfold createSlugChars
  have hbase : ∀ c ∈ (jsTrim (t.map jsToLower)).filter isKeepChar,
      isJsWs c = true ∨ c = '-' := by
    intro c hc
    have hkeep : isKeepChar c = true := List.of_mem_filter hc
    have hmem : c ∈ t.map jsToLower := jsTrim_subset _ c (List.mem_of_mem_filter hc)
    obtain ⟨c0, hc0, rfl⟩ := List.mem_map.mp hmem
    have hnal : isLowerAlnum (jsToLower c0) = false := jsToLower_not_alnum (ht c0 hc0)
    unfold isKeepChar at hkeep
    rw [hnal] at hkeep
    simp only [Bool.false_or, Bool.or_eq_true] at hkeep
    rcases hkeep with hw | hd
    · exact Or.inl hw
    · exact Or.inr (by simpa using hd)
  have hws : ∀ c ∈ replaceWsRuns ((jsTrim (t.map jsToLower)).filter isKeepChar),
      c = '-' := by
    intro c hc
    rcases replaceRuns_mem isJsWs '-' _ c hc with rfl | ⟨hm, hnw⟩
    · rfl
    · rcases hbase c hm with hw | hd
      · rw [hw] at hnw
        exact absurd hnw (by simp)
      · exact hd
  rcases collapse_all_dash _ hws with he | he
  · rw [he]
    decide
  · rw [he]
    decide

/-- Closed instance of the general clause of `createSlug_empty_unrejected`
at a concrete alphanumeric-free title. -/
theorem createSlug_empty_unrejected_witness :
    createSlugChars "@# %".data = [] :=
  createSlug_empty_unrejected.1 "@# %".data (by decide)


/-- A Booking document: the referenced event id and the email address. -/
structure BookingDoc where
  eventId : Nat
  email : String
deriving DecidableEq

/-- The persisted collections: ids of existing Events, saved Bookings. -/
structure DbState where
  events : List Nat
  bookings : List BookingDoc
deriving DecidableEq

/-- The Booking pre-save hook from `src/database/booking.model.ts`:
`Event.exists({ _id: this.eventId })` must succeed, then the email is
re-checked against `emailRegex`. -/
def bookingPreSave (st : DbState) (b : BookingDoc) : Except String Unit :=
  if (st.events.contains b.eventId) = false then
    .error "Cannot create booking: referenced event does not exist."
  else if (emailMatch b.email.data) = false then
    .error "Invalid email address provided."
  else .ok ()

/-- Saving a Booking: the pre-save hook runs, and only on success is the
document persisted. -/
def saveBooking (st : DbState) (b : BookingDoc) : Except String DbState :=
  match bookingPreSave st b with
  | .error msg => .error msg
  | .ok _ => .ok { st with bookings := st.bookings ++ [b] }

/-- **C6.** Saving a Booking whose eventId is not an existing Event's id
fails with the dangling-reference error (so nothing is persisted), while
saving one that references an existing Event with a valid email succeeds
and appends exactly that Booking. -/
theorem bookingSave_spec :
    (∀ (st : DbState) (b : BookingDoc),
      st.events.contains b.eventId = false →
      saveBooking st b =
        .error "Cannot create booking: referenced event does not exist.") ∧
    (∀ (st : DbState) (b : BookingDoc),
      st.events.contains b.eventId = true →
      emailMatch b.email.data = true →
      saveBooking st b = .ok { st with bookings := st.bookings ++ [b] }) := by
  constructor
  · intro st b h
    unfold saveBooking bookingPreSave
    rw [if_pos h]
  · intro st b h hm
    unfold saveBooking bookingPreSave
    rw [if_neg (by rw [h]; simp), if_neg (by rw [hm]; simp)]

/-- Closed instance of `bookingSave_spec`: a dangling reference fails, a
valid booking against an existing event succeeds. -/
theorem bookingSave_spec_witness :
    saveBooking ⟨[5], []⟩ ⟨7, "a@b.com"⟩ =
      .error "Cannot create booking: referenced event does not exist." ∧
    saveBooking ⟨[5], []⟩ ⟨5, "a@b.com"⟩ = .ok ⟨[5], [⟨5, "a@b.com"⟩]⟩ :=
  ⟨bookingSave_spec.1 ⟨[5], []⟩ ⟨7, "a@b.com"⟩ (by decide),
   bookingSave_spec.2 ⟨[5], []⟩ ⟨5, "a@b.com"⟩ (by decide) (by decide)⟩

/-- A JavaScript value, as far as the page's payload validation inspects
it. -/
inductive Js
  | undefinedVal
  | null
  | bool (b : Bool)
  | num (n : Int)
  | str (s : String)
  | obj (fields : List (String × Js))

/-- JavaScript truthiness (`!v` is its negation). -/
def Js.truthy : Js → Bool
  | .undefinedVal => false
  | .null => false
  | .bool b => b
  | .num n => !(n == 0)
  | .str s => !(s.data.isEmpty)
  | .obj _ => true

/-- Whether `typeof v` is `"object"` (`null` included). -/
def Js.isObjectType : Js → Bool
  | .null => true
  | .obj _ => true
  | _ => false

/-- Property access `v.f`: `undefined` on non-objects and missing keys. -/
def Js.getField : Js → String → Js
  | .obj fields, name =>
    match fields.find? (fun p => p.1 == name) with
    | some p => p.2
    | none => .undefinedVal
  | _, _ => .undefinedVal

/-- Outcome of the page's `fetch` as the component observes it:
the fetch (or a later awaited action) rejected, or a response with its
`ok` flag, status, and JSON body (`none` when `response.json()` threw). -/
inductive FetchOutcome
  | fetchFailed
  | response (ok : Bool) (status : Nat) (body : Option Js)

/-- The user-visible result of the event-details page. -/
inductive PageResult
  | notFound
  | unavailable
  | rendered (description : Js)

/-- `EventDetailsPage` from the event-details page component, as a
function of the fetch outcome; the Boolean records whether
`console.error` was called. -/
def eventDetailsPage (o : FetchOutcome) : PageResult × Bool :=
  match o with
  | .fetchFailed => (.notFound, true)
  | .response ok status body =>
    if ok = false then
      if status == 404 then (.notFound, false)
      else (.unavailable, true)
    else match body with
      | none => (.notFound, true)
      | some data =>
        if !(data.truthy) || !(data.isObjectType) ||
            !((data.getField "event").truthy) ||
            !((data.getField "event").isObjectType) then
          (.notFound, true)
        else if !(((data.getField "event").getField "description").truthy) then
          (.notFound, true)
        else
          (.rendered ((data.getField "event").getField "description"), false)

/-- **C3 counterexample.** A non-OK, non-404 response (status 500) does
not resolve to not-found: the component renders the "Event unavailable"
fallback section instead. -/
theorem eventDetailsPage_claim_counterexample :
    (eventDetailsPage (.response false 500 none)).1 = .unavailable ∧
    (eventDetailsPage (.response false 500 none)).1 ≠ .notFound := by
  constructor
  · rfl
  · intro h
    exact PageResult.noConfusion h

/-- **C3 (amended).** On a non-OK response, an explicit 404 yields
not-found without logging, while every other non-OK status is logged and
yields the "Event unavailable" fallback section — not not-found. -/
theorem eventDetailsPage_nonOk (status : Nat) (body : Option Js) :
    (status = 404 →
      eventDetailsPage (.response false status body) = (.notFound, false)) ∧
    (status ≠ 404 →
      eventDetailsPage (.response false status body) = (.unavailable, true)) := by
  constructor
  · intro h
    subst h
    rfl
  · intro h
    simp [eventDetailsPage, h]

/-- Closed instance of `eventDetailsPage_nonOk` at statuses 404 and 503. -/
theorem eventDetailsPage_nonOk_witness :
    eventDetailsPage (.response false 404 none) = (.notFound, false) ∧
    eventDetailsPage (.response false 503 none) = (.unavailable, true) :=
  ⟨(eventDetailsPage_nonOk 404 none).1 rfl,
   (eventDetailsPage_nonOk 503 none).2 (by decide)⟩

/-- The module-level cache of `connectToDatabase`: the resolved
connection handle, and the id of the in-flight connection attempt. -/
structure ConnCache where
  conn : Option Nat
  promise : Option Nat
deriving DecidableEq

/-- What a single call awaits: the already-cached connection (returned
immediately), or a pending connection attempt. -/
inductive CallTarget
  | immediate (conn : Nat)
  | awaiting (promiseId : Nat)
deriving DecidableEq

/-- The synchronous prefix of one `connectToDatabase` call (entry up to
its `await cached.promise`), which runs atomically in the single-threaded
event loop: reuse the cached connection; otherwise reuse the in-flight
promise; otherwise start `mongoose.connect` (the Boolean records whether
this call started it), storing the fresh attempt id in the cache. -/
def connectSync (st : ConnCache) (fresh : Nat) : ConnCache × Bool × CallTarget :=
  match st.conn with
  | some c => (st, false, .immediate c)
  | none =>
    match st.promise with
    | some p => (st, false, .awaiting p)
    | none => ({ st with promise := some fresh }, true, .awaiting fresh)

/-- `cached.conn = await cached.promise`: the attempt resolves to the
handle `c`, which is cached. -/
def resolveConn (st : ConnCache) (c : Nat) : ConnCache :=
  { st with conn := some c }

/-- A burst of concurrent calls arriving before the first attempt
resolves: their synchronous prefixes run one after another (cooperative
scheduling), threading the cache. -/
def runBurst (st : ConnCache) : List Nat → ConnCache × List (Bool × CallTarget)
  | [] => (st, [])
  | i :: rest =>
    let r1 := connectSync st i
    let r2 := runBurst r1.1 rest
    (r2.1, r1.2 :: r2.2)

lemma runBurst_pending (p : Nat) :
    ∀ ids : List Nat,
      runBurst ⟨none, some p⟩ ids =
        (⟨none, some p⟩, ids.map (fun _ => (false, CallTarget.awaiting p)))
  | [] => rfl
  | i :: rest => by
    simp only [runBurst]
    rw [show connectSync ⟨none, some p⟩ i =
      (⟨none, some p⟩, false, .awaiting p) from rfl]
    rw [runBurst_pending p rest]
    rfl

/-- **C4.** A burst of calls hitting a cold cache results in exactly one
`mongoose.connect` invocation (by the first call); every call in the
burst awaits that same attempt; the cache afterwards holds that pending
attempt; and once the attempt has resolved, every later call returns the
cached handle without starting anything. -/
theorem connectToDatabase_singleFlight (i0 : Nat) (ids : List Nat) :
    ((runBurst ⟨none, none⟩ (i0 :: ids)).2.countP (fun r => r.1) = 1) ∧
    (∀ r ∈ (runBurst ⟨none, none⟩ (i0 :: ids)).2,
      r.2 = CallTarget.awaiting i0) ∧
    ((runBurst ⟨none, none⟩ (i0 :: ids)).1 = ⟨none, some i0⟩) ∧
    (∀ (st : ConnCache) (c fresh : Nat),
      connectSync (resolveConn st c) fresh =
        (resolveConn st c, false, .immediate c)) := by
  have hstep : runBurst ⟨none, none⟩ (i0 :: ids) =
      (⟨none, some i0⟩,
        (true, CallTarget.awaiting i0) ::
          ids.map (fun _ => (false, CallTarget.awaiting i0))) := by
    simp only [runBurst]
    rw [show connectSync ⟨none, none⟩ i0 =
      (⟨none, some i0⟩, true, .awaiting i0) from rfl]
    rw [runBurst_pending i0 ids]
  refine ⟨?_, ?_, ?_, ?_⟩
  · rw [hstep]
    simp [List.countP_cons]
  · rw [hstep]
    intro r hr
    rcases List.mem_cons.mp hr with rfl | hmem
    · rfl
    · rcases List.mem_map.mp hmem with ⟨-, -, rfl⟩
      rfl
  · rw [hstep]
  · intro st c fresh
    rfl

/-- Closed instance of `connectToDatabase_singleFlight`: three concurrent
cold-start calls, one `mongoose.connect`, all awaiting attempt 7. -/
theorem connectToDatabase_singleFlight_witness :
    (runBurst ⟨none, none⟩ [7, 8, 9]).2.countP (fun r => r.1) = 1 ∧
    ((runBurst ⟨none, none⟩ [7, 8, 9]).2.get ⟨2, by decide⟩).2 =
      CallTarget.awaiting 7 :=
  ⟨(connectToDatabase_singleFlight 7 [8, 9]).1,
   (connectToDatabase_singleFlight 7 [8, 9]).2.1 _
     (List.get_mem (runBurst ⟨none, none⟩ [7, 8, 9]).2 2 (by decide))⟩

end DevEvents
